import Mathlib

/-!
Verification of the Cadillac Escalade ESV finder (`app.py`).

The Python program scrapes dealer inventory pages, finds text nodes
mentioning all configured model keywords, climbs four DOM levels to a
"listing card", extracts a price, filters used vehicles, deduplicates and
ranks by price.  This file shallowly embeds the pure core of that program:

* `extract_price` mirrors `extract_price` (the regex search for
  a dollar sign, optional whitespace and 4-8 digit/comma characters);
* `HNode`/`HForest` model the parsed DOM tree (the BeautifulSoup document);
* `parse_inventory_page` mirrors the candidate-card loop with its keyword
  re-check, used-vehicle filter, price extraction, title truncation and
  per-call deduplication;
* `find_best_offers` mirrors the aggregation (concatenation in dealer
  order followed by a stable ascending sort on price);
* `load_dealers` mirrors the dealer-CSV row handling, with `FieldVal`
  modelling the three states a `csv.DictReader` cell can be in
  (column absent, value `None` for a short row, or a string).

Machine strings are modelled as Lean `String`s (lists of characters,
matching Python code-point semantics); Python's ASCII-relevant `lower` and
`strip` are modelled explicitly so that everything reduces by `decide`.
-/

/-- Characters treated as whitespace by the price regex `\s` and by
`str.strip` (ASCII fragment; the program's inputs of interest are ASCII
plus punctuation, which these functions leave untouched). -/
def isSpaceChar (c : Char) : Bool :=
  c == ' ' || c == '\t' || c == '\n' || c == '\r' || c == '\x0b' || c == '\x0c'

/-- ASCII lowering of one character, as Python's `str.lower` acts on ASCII. -/
def lowerChar (c : Char) : Char :=
  if 65 ≤ c.toNat ∧ c.toNat ≤ 90 then Char.ofNat (c.toNat + 32) else c

/-- Model of Python `str.lower` (ASCII fragment). -/
def pyLower (s : String) : String := String.mk (s.toList.map lowerChar)

/-- Model of Python `str.strip()`: drop whitespace from both ends. -/
def pyStrip (s : String) : String :=
  String.mk (((s.toList.dropWhile isSpaceChar).reverse.dropWhile isSpaceChar).reverse)

/-- `charsLeadBool needle hay` : the character list `needle` is an initial
segment of `hay`. -/
def charsLeadBool : List Char → List Char → Bool
  | [], _ => true
  | _ :: _, [] => false
  | a :: as, b :: bs => a == b && charsLeadBool as bs

/-- `charsHas needle hay` : `needle` occurs contiguously somewhere in `hay`
(Python's `in` on strings). -/
def charsHas (needle : List Char) : List Char → Bool
  | [] => needle.isEmpty
  | b :: bs => charsLeadBool needle (b :: bs) || charsHas needle bs

/-- `strHas hay needle` : Python `needle in hay` for strings. -/
def strHas (hay needle : String) : Bool := charsHas needle.toList hay.toList

/-- `text_contains_all_keywords` from `app.py`: every keyword, lowered,
occurs as a substring of the lowered text (conjunctive substring test). -/
def text_contains_all_keywords (text : String) (keywords : List String) : Bool :=
  keywords.all (fun k => strHas (pyLower text) (pyLower k))

/-- `is_used_vehicle_text` from `app.py`: the lowered text contains one of
the fixed used-vehicle markers. -/
def is_used_vehicle_text (text : String) : Bool :=
  ["used", "pre-owned", "pre owned", "cpo", "certified pre-owned"].any
    (fun k => strHas (pyLower text) k)

/-- Digit-or-comma test: the character class of the regex group. -/
def isDigitOrComma (c : Char) : Bool := c.isDigit || c == ','

/-- Decimal value of a digit list, as Python `int` on a digit string. -/
def digitsToNat (ds : List Char) : Nat :=
  ds.foldl (fun n c => n * 10 + (c.toNat - 48)) 0

/-- One attempt of the regex at the current position: a dollar sign,
greedily skipped whitespace, then greedily up to 8 (at least 4)
digit-or-comma characters — the captured group of the first alternative of
the pattern at this start position, if it matches here. -/
def groupAt : List Char → Option (List Char)
  | [] => none
  | c :: rest =>
    if c == '$' then
      let g := ((rest.dropWhile isSpaceChar).takeWhile isDigitOrComma).take 8
      if 4 ≤ g.length then some g else none
    else none

/-- Value of a captured group: commas removed (Python `replace(",", "")`),
then integer conversion, which fails on an empty remainder (the
`ValueError` branch that returns `None`). The group only ever holds digits
and commas, so the comma-free remainder is a digit string. -/
def groupValue (g : List Char) : Option Nat :=
  let ds := g.filter (fun c => c != ',')
  if ds.isEmpty then none else some (digitsToNat ds)

/-- Scan of `re.search`: try the pattern at each start position, left to
right; at the first position where the pattern matches, commit to that
group's value (the source returns `None` if its integer conversion fails,
without trying later positions). -/
def scanPrice : List Char → Option Nat
  | [] => none
  | c :: rest =>
    match groupAt (c :: rest) with
    | some g => groupValue g
    | none => scanPrice rest

/-- `extract_price` from `app.py`. -/
def extract_price (text : String) : Option Nat := scanPrice text.toList

/-- `VehicleOffer` dataclass from `app.py`.  `distance_miles` is a float in
the source, but it is always `None`, so only its optionality is modelled. -/
structure VehicleOffer where
  dealer_name : String
  title : String
  price : Nat
  listing_url : String
  location : Option String
  distance_miles : Option Nat
deriving DecidableEq, Repr

mutual

/-- A DOM node of the parsed document: a text node or an element with a
tag and a forest of children (BeautifulSoup's tree; the root plays the
role of the soup/document object, whose parent is `None`). -/
inductive HNode : Type where
  | textNode : String → HNode
  | element : String → HForest → HNode

/-- A list of sibling DOM nodes (a separate inductive so that all
recursions below are structural and reduce definitionally). -/
inductive HForest : Type where
  | nil : HForest
  | cons : HNode → HForest → HForest

end

mutual

/-- All descendant text-node strings of a node, in document order. -/
def nodeStrings : HNode → List String
  | .textNode s => [s]
  | .element _ cs => forestStrings cs

/-- All descendant text-node strings of a forest, in document order. -/
def forestStrings : HForest → List String
  | .nil => []
  | .cons h t => nodeStrings h ++ forestStrings t

end

/-- Join with a separator (Python `sep.join`). -/
def joinSep : String → List String → String
  | _, [] => ""
  | _, [s] => s
  | sep, s :: t :: rest => s ++ sep ++ joinSep sep (t :: rest)

/-- `get_text(separator=" ", strip=True)` of BeautifulSoup: each descendant
string stripped, empty remainders dropped, the rest joined with a single
space. -/
def get_text (n : HNode) : String :=
  joinSep " " (((nodeStrings n).map pyStrip).filter (fun s => !s.isEmpty))

mutual

/-- The text nodes of a node together with their child-index paths from
that node, in document order (what `soup.find_all(string=...)` walks). -/
def nodeTextPaths : HNode → List (List Nat × String)
  | .textNode s => [([], s)]
  | .element _ cs => forestTextPaths 0 cs

/-- Text nodes of a forest, with paths, the first sibling having index `i`. -/
def forestTextPaths : Nat → HForest → List (List Nat × String)
  | _, .nil => []
  | i, .cons h t =>
    (nodeTextPaths h).map (fun p => (i :: p.1, p.2)) ++ forestTextPaths (i + 1) t

end

/-- Child of a forest at an index. -/
def forestGet : HForest → Nat → Option HNode
  | .nil, _ => none
  | .cons h _, 0 => some h
  | .cons _ t, n + 1 => forestGet t n

/-- Node of a tree at a child-index path. -/
def nodeAt : HNode → List Nat → Option HNode
  | n, [] => some n
  | .textNode _, _ :: _ => none
  | .element _ cs, i :: p =>
    match forestGet cs i with
    | none => none
    | some c => nodeAt c p

/-- The source's four-step parent climb from a text node at `p`: each step
replaces the node by its parent, stopping at the document root (whose
parent is `None`), so the card sits at the path with the last four indices
removed, truncated at the root. -/
def climbPath (p : List Nat) : List Nat := p.take (p.length - 4)

/-- Recomputed full text of the listing card recovered for the text node
at path `p` (`card.get_text(separator=" ", strip=True)` in the source). -/
def cardText (root : HNode) (p : List Nat) : String :=
  get_text ((nodeAt root (climbPath p)).getD root)

/-- The card texts the parser's loop visits: one for each text node whose
own string contains all model keywords, in document order. -/
def candidateCardTexts (root : HNode) (keywords : List String) : List String :=
  ((nodeTextPaths root).filter (fun q => text_contains_all_keywords q.2 keywords)).map
    (fun q => cardText root q.1)

/-- Python `title[:137] + "..."` ingredient: first `n` characters. -/
def strTake (s : String) (n : Nat) : String := String.mk (s.toList.take n)

/-- Character count of a string (Python `len` on `str`). -/
def strLen (s : String) : Nat := s.toList.length

/-- Title building from the source: the card text unchanged when at most
140 characters, otherwise its first 137 characters followed by `"..."`. -/
def truncTitle (s : String) : String :=
  if 140 < strLen s then strTake s 137 ++ "..." else s

/-- The deduplication key `(dealer_name, title, price)` of an offer. -/
def dedupKeyOf (o : VehicleOffer) : String × String × Nat :=
  (o.dealer_name, o.title, o.price)

/-- The per-card body of the parser's loop up to deduplication: keyword
re-check on the recomputed card text, used-vehicle filter when `new_only`,
price extraction, and construction of the offer with the truncated title,
the dealer's inventory URL and unset location fields. -/
def cardOffer (dealer_name inventory_url : String) (keywords : List String)
    (new_only : Bool) (card_text : String) : Option VehicleOffer :=
  if !(text_contains_all_keywords card_text keywords) then none
  else if new_only && is_used_vehicle_text card_text then none
  else
    match extract_price card_text with
    | none => none
    | some price =>
      some ⟨dealer_name, truncTitle card_text, price, inventory_url, none, none⟩

/-- One iteration of the parser's loop: process a card text, then skip the
offer when its `(dealer, title, price)` key is in `seen`, otherwise append
the offer and record the key. -/
def pstep (dealer_name inventory_url : String) (keywords : List String)
    (new_only : Bool) (acc : List VehicleOffer × List (String × String × Nat))
    (card_text : String) : List VehicleOffer × List (String × String × Nat) :=
  match cardOffer dealer_name inventory_url keywords new_only card_text with
  | none => acc
  | some o =>
    if dedupKeyOf o ∈ acc.2 then acc else (acc.1 ++ [o], dedupKeyOf o :: acc.2)

/-- `parse_inventory_page` from `app.py`, over the parsed DOM: visit the
keyword-matching text nodes in document order, process each recovered card,
deduplicate with a `seen` set created afresh for this call, and return the
collected offers. -/
def parse_inventory_page (root : HNode) (dealer_name inventory_url : String)
    (model_keywords : List String) (new_only : Bool) : List VehicleOffer :=
  ((candidateCardTexts root model_keywords).foldl
    (pstep dealer_name inventory_url model_keywords new_only) ([], [])).1

/-- Stable insertion of an offer into a price-sorted list: the new offer
goes before the first strictly-not-smaller element, so an earlier arrival
stays ahead of equal-priced later arrivals. -/
def insertByPrice (o : VehicleOffer) : List VehicleOffer → List VehicleOffer
  | [] => [o]
  | x :: xs => if o.price ≤ x.price then o :: x :: xs else x :: insertByPrice o xs

/-- Stable ascending sort on `price`, modelling Python's stable
`list.sort(key=lambda o: o.price)`. -/
def sortByPrice (l : List VehicleOffer) : List VehicleOffer :=
  l.foldr insertByPrice []

/-- `find_best_offers` from `app.py`, with the per-dealer fetch+parse
results supplied as input (fetching is an external effect): concatenate
the per-dealer offer lists in configured dealer order, return empty when
nothing matched, otherwise sort ascending by price. -/
def find_best_offers (dealer_results : List (List VehicleOffer)) : List VehicleOffer :=
  let all_offers := dealer_results.flatten
  if all_offers.isEmpty then [] else sortByPrice all_offers

/-- A dealer record as loaded from the configuration file. -/
structure Dealer where
  dealer_name : String
  inventory_url : String
deriving DecidableEq, Repr

/-- One cell of a `csv.DictReader` row: the column can be absent from the
header, the value can be `None` (a data row shorter than the header is
padded with `restval=None`), or a string. -/
inductive FieldVal : Type where
  | absent : FieldVal
  | null : FieldVal
  | str : String → FieldVal
deriving DecidableEq, Repr

/-- `row.get(key, "").strip()` on one cell: an absent column yields the
default `""` (stripped, still `""`); a `None` value is returned by `get`
and `None.strip()` raises `AttributeError` (modelled as `none`); a string
is stripped. -/
def getStripped : FieldVal → Option String
  | .absent => some ""
  | .null => none
  | .str s => some (pyStrip s)

/-- `load_dealers` from `app.py`, the file contents supplied as input:
`none` models an absent file (logged, empty result); otherwise rows are
processed in order, a row whose stripped name or URL is empty is skipped,
and a raised `AttributeError` (a `None` cell) aborts the whole call. -/
def load_dealers (file : Option (List (FieldVal × FieldVal))) :
    Except String (List Dealer) :=
  match file with
  | none => .ok []
  | some rows =>
    rows.foldl
      (fun acc row =>
        match acc with
        | .error e => .error e
        | .ok ds =>
          match getStripped row.1, getStripped row.2 with
          | some name, some url =>
            if name.isEmpty || url.isEmpty then .ok ds else .ok (ds ++ [⟨name, url⟩])
          | _, _ => .error "AttributeError")
      (.ok [])

/-- Forest with a single node. -/
def oneNode (n : HNode) : HForest := .cons n .nil

/-- A document as the lxml backend produces it for a single snippet:
document root, `html`, `body`, then the snippet. -/
def wrapDoc (inner : HNode) : HNode :=
  .element "[document]" (oneNode (.element "html" (oneNode (.element "body" (oneNode inner)))))

/-- The keyword configuration of the scenarios: `["escalade", "esv"]`. -/
def kwEsc : List String := ["escalade", "esv"]

/-- Card text of the new-vehicle end-to-end scenario. -/
def escText : String := "2024 Escalade ESV Sport — $104,990 New"

/-- Document of the new-vehicle end-to-end scenario. -/
def docEsc : HNode := wrapDoc (.element "div" (oneNode (.textNode escText)))

/-- Card text of the CPO (used) scenario. -/
def cpoText : String := "2019 Escalade ESV CPO — $71,250"

/-- Document of the CPO (used) scenario. -/
def docCPO : HNode := wrapDoc (.element "div" (oneNode (.textNode cpoText)))

/-- A card text with all keywords, a recognizable price and a used marker. -/
def usedText : String := "Used Escalade ESV — $50,000 great deal"

/-- Document containing `usedText` as its only listing. -/
def docUsed : HNode := wrapDoc (.element "div" (oneNode (.textNode usedText)))

/-- A short card text that naturally ends in an ellipsis. -/
def dotsText : String := "Escalade ESV Sport $12,345 ..."

/-- Document containing `dotsText` as its only listing. -/
def docDots : HNode := wrapDoc (.element "div" (oneNode (.textNode dotsText)))

/-- Equal-price offers from dealer A used in the sort-stability scenario. -/
def o50 : VehicleOffer := ⟨"Dealer A", "fifty", 50000, "urlA", none, none⟩

/-- First 30000-priced offer of the sort-stability scenario. -/
def o30a : VehicleOffer := ⟨"Dealer A", "thirty first", 30000, "urlA", none, none⟩

/-- Second 30000-priced offer of the sort-stability scenario. -/
def o30b : VehicleOffer := ⟨"Dealer B", "thirty second", 30000, "urlB", none, none⟩

/-- The 80000-priced offer of the sort-stability scenario. -/
def o80 : VehicleOffer := ⟨"Dealer B", "eighty", 80000, "urlB", none, none⟩

/-- `s` ends with the three-character ellipsis `"..."`. -/
def strEndsWithDots (s : String) : Bool :=
  charsLeadBool ['.', '.', '.'] s.toList.reverse

theorem toList_mk (l : List Char) : (String.mk l).toList = l := rfl

theorem mk_append (l m : List Char) : String.mk l ++ String.mk m = String.mk (l ++ m) := rfl

theorem dots_eq_mk : "..." = String.mk ['.', '.', '.'] := rfl

theorem strEndsWithDots_append (s : String) : strEndsWithDots (s ++ "...") = true := by
  cases s with
  | mk l =>
    show charsLeadBool ['.', '.', '.'] ((l ++ ['.', '.', '.']).reverse) = true
    simp [List.reverse_append, charsLeadBool]

theorem strLen_truncTitle (s : String) : strLen (truncTitle s) ≤ 140 := by
  unfold truncTitle
  split
  · cases s with
    | mk l =>
      show ((l.take 137 ++ ['.', '.', '.']).length : Nat) ≤ 140
      simp only [List.length_append, List.length_take, List.length_cons, List.length_nil]
      omega
  · omega

theorem truncTitle_of_le {s : String} (h : strLen s ≤ 140) : truncTitle s = s := by
  unfold truncTitle
  rw [if_neg (by omega)]

theorem truncTitle_of_gt {s : String} (h : 140 < strLen s) :
    truncTitle s = strTake s 137 ++ "..." := by
  unfold truncTitle
  rw [if_pos h]

theorem mem_insertByPrice {x o : VehicleOffer} {l : List VehicleOffer} :
    x ∈ insertByPrice o l ↔ x = o ∨ x ∈ l := by
  induction l with
  | nil => simp [insertByPrice]
  | cons a t ih =>
    unfold insertByPrice
    by_cases hle : o.price ≤ a.price
    · rw [if_pos hle]
      simp only [List.mem_cons]
    · rw [if_neg hle]
      simp only [List.mem_cons, ih]
      tauto

theorem pairwise_insertByPrice (o : VehicleOffer) (l : List VehicleOffer)
    (h : l.Pairwise (fun a b => a.price ≤ b.price)) :
    (insertByPrice o l).Pairwise (fun a b => a.price ≤ b.price) := by
  induction l with
  | nil => simp [insertByPrice]
  | cons x xs ih =>
    rcases List.pairwise_cons.1 h with ⟨hx, hxs⟩
    unfold insertByPrice
    by_cases hle : o.price ≤ x.price
    · rw [if_pos hle]
      refine List.pairwise_cons.2 ⟨?_, h⟩
      intro y hy
      rcases List.mem_cons.1 hy with hy | hy
      · exact hy ▸ hle
      · exact Nat.le_trans hle (hx y hy)
    · rw [if_neg hle]
      refine List.pairwise_cons.2 ⟨?_, ih hxs⟩
      intro y hy
      rcases mem_insertByPrice.1 hy with hy | hy
      · exact hy ▸ Nat.le_of_not_le hle
      · exact hx y hy

theorem sorted_sortByPrice (l : List VehicleOffer) :
    (sortByPrice l).Pairwise (fun a b => a.price ≤ b.price) := by
  induction l with
  | nil => simp [sortByPrice]
  | cons a t ih => exact pairwise_insertByPrice a (sortByPrice t) ih

theorem filter_insertByPrice (o : VehicleOffer) (l : List VehicleOffer) (p : Nat) :
    (insertByPrice o l).filter (fun x => x.price == p) =
      if o.price == p then o :: l.filter (fun x => x.price == p)
      else l.filter (fun x => x.price == p) := by
  induction l with
  | nil => simp only [insertByPrice, List.filter_cons, List.filter_nil]
  | cons x xs ih =>
    unfold insertByPrice
    by_cases hle : o.price ≤ x.price
    · rw [if_pos hle, List.filter_cons]
    · rw [if_neg hle, List.filter_cons, ih]
      by_cases hop : o.price = p
      · have hxp : (x.price == p) = false := by
          have hxo : x.price < o.price := Nat.lt_of_not_le hle
          simp only [beq_eq_false_iff_ne, ne_eq]
          omega
        simp [hop, hxp, List.filter_cons]
      · have hop' : (o.price == p) = false := by simpa using hop
        simp [hop', List.filter_cons]

theorem filter_sortByPrice (l : List VehicleOffer) (p : Nat) :
    (sortByPrice l).filter (fun x => x.price == p) = l.filter (fun x => x.price == p) := by
  induction l with
  | nil => rfl
  | cons a t ih =>
    show (insertByPrice a (sortByPrice t)).filter _ = _
    rw [filter_insertByPrice, ih, List.filter_cons]

theorem find_best_offers_eq (rs : List (List VehicleOffer)) :
    find_best_offers rs = sortByPrice rs.flatten := by
  unfold find_best_offers
  cases h : rs.flatten with
  | nil => simp [h, sortByPrice]
  | cons a t => simp [h]

theorem pstep_fst_sub (d u : String) (kws : List String) (no : Bool)
    (acc : List VehicleOffer × List (String × String × Nat)) (ct : String)
    {o : VehicleOffer} (h : o ∈ acc.1) : o ∈ (pstep d u kws no acc ct).1 := by
  cases hc : cardOffer d u kws no ct with
  | none =>
    simp only [pstep, hc]
    exact h
  | some o' =>
    simp only [pstep, hc]
    by_cases hk : dedupKeyOf o' ∈ acc.2
    · rw [if_pos hk]
      exact h
    · rw [if_neg hk]
      exact List.mem_append_left _ h

theorem pfold_mono (d u : String) (kws : List String) (no : Bool) :
    ∀ (texts : List String) (acc : List VehicleOffer × List (String × String × Nat))
      (o : VehicleOffer), o ∈ acc.1 →
      o ∈ (texts.foldl (pstep d u kws no) acc).1 := by
  intro texts
  induction texts with
  | nil => intro acc o h; exact h
  | cons ct ts ih =>
    intro acc o h
    exact ih (pstep d u kws no acc ct) o (pstep_fst_sub d u kws no acc ct h)

theorem pstep_fst_cases (d u : String) (kws : List String) (no : Bool)
    (acc : List VehicleOffer × List (String × String × Nat)) (ct : String)
    {o : VehicleOffer} (h : o ∈ (pstep d u kws no acc ct).1) :
    o ∈ acc.1 ∨ cardOffer d u kws no ct = some o := by
  cases hc : cardOffer d u kws no ct with
  | none =>
    simp only [pstep, hc] at h
    exact .inl h
  | some o' =>
    simp only [pstep, hc] at h
    by_cases hk : dedupKeyOf o' ∈ acc.2
    · rw [if_pos hk] at h
      exact .inl h
    · rw [if_neg hk] at h
      rcases List.mem_append.1 h with h | h
      · exact .inl h
      · rcases List.mem_singleton.1 h with rfl
        exact .inr rfl

theorem pfold_sources (d u : String) (kws : List String) (no : Bool) :
    ∀ (texts : List String) (acc : List VehicleOffer × List (String × String × Nat))
      (o : VehicleOffer), o ∈ (texts.foldl (pstep d u kws no) acc).1 →
      o ∈ acc.1 ∨ ∃ ct ∈ texts, cardOffer d u kws no ct = some o := by
  intro texts
  induction texts with
  | nil => intro acc o h; exact .inl h
  | cons ct ts ih =>
    intro acc o h
    rcases ih (pstep d u kws no acc ct) o h with h' | ⟨ct', hct', hc⟩
    · rcases pstep_fst_cases d u kws no acc ct h' with h'' | h''
      · exact .inl h''
      · exact .inr ⟨ct, List.mem_cons_self ct ts, h''⟩
    · exact .inr ⟨ct', List.mem_cons_of_mem ct hct', hc⟩

/-- Invariant of the parser's loop state: every seen key belongs to an
emitted offer, every emitted offer's key has been seen, and the emitted
offers carry pairwise-distinct keys. -/
def pinv (acc : List VehicleOffer × List (String × String × Nat)) : Prop :=
  (∀ k ∈ acc.2, ∃ o ∈ acc.1, dedupKeyOf o = k) ∧
  (∀ o ∈ acc.1, dedupKeyOf o ∈ acc.2) ∧
  acc.1.Pairwise (fun a b => dedupKeyOf a ≠ dedupKeyOf b)

theorem pstep_pinv (d u : String) (kws : List String) (no : Bool)
    (acc : List VehicleOffer × List (String × String × Nat)) (ct : String)
    (h : pinv acc) : pinv (pstep d u kws no acc ct) := by
  obtain ⟨h1, h2, h3⟩ := h
  cases hc : cardOffer d u kws no ct with
  | none =>
    simp only [pstep, hc]
    exact ⟨h1, h2, h3⟩
  | some o =>
    simp only [pstep, hc]
    by_cases hk : dedupKeyOf o ∈ acc.2
    · rw [if_pos hk]
      exact ⟨h1, h2, h3⟩
    · rw [if_neg hk]
      refine ⟨?_, ?_, ?_⟩
      · intro k hkm
        rcases List.mem_cons.1 hkm with rfl | hkm
        · exact ⟨o, List.mem_append_right _ (List.mem_singleton_self o), rfl⟩
        · rcases h1 k hkm with ⟨o', ho', hko'⟩
          exact ⟨o', List.mem_append_left _ ho', hko'⟩
      · intro o' ho'
        rcases List.mem_append.1 ho' with ho' | ho'
        · exact List.mem_cons_of_mem _ (h2 o' ho')
        · rcases List.mem_singleton.1 ho' with rfl
          exact List.mem_cons_self _ _
      · rw [List.pairwise_append]
        refine ⟨h3, by simp, ?_⟩
        intro a ha b hb
        rcases List.mem_singleton.1 hb with rfl
        intro hab
        exact hk (hab ▸ h2 a ha)

theorem pfold_pinv (d u : String) (kws : List String) (no : Bool) :
    ∀ (texts : List String) (acc : List VehicleOffer × List (String × String × Nat)),
      pinv acc → pinv (texts.foldl (pstep d u kws no) acc) := by
  intro texts
  induction texts with
  | nil => intro acc h; exact h
  | cons ct ts ih =>
    intro acc h
    exact ih (pstep d u kws no acc ct) (pstep_pinv d u kws no acc ct h)

theorem pfold_complete (d u : String) (kws : List String) (no : Bool) :
    ∀ (texts : List String) (acc : List VehicleOffer × List (String × String × Nat)),
      pinv acc → ∀ ct ∈ texts, ∀ o : VehicleOffer, cardOffer d u kws no ct = some o →
      ∃ o' ∈ (texts.foldl (pstep d u kws no) acc).1, dedupKeyOf o' = dedupKeyOf o := by
  intro texts
  induction texts with
  | nil =>
    intro acc _ ct hct
    exact absurd hct (List.not_mem_nil ct)
  | cons a ts ih =>
    intro acc hinv ct hct o hco
    rcases List.mem_cons.1 hct with rfl | hct
    · by_cases hk : dedupKeyOf o ∈ acc.2
      · rcases hinv.1 (dedupKeyOf o) hk with ⟨o'', ho'', hko''⟩
        exact ⟨o'', pfold_mono d u kws no ts _ o''
          (pstep_fst_sub d u kws no acc ct ho''), hko''⟩
      · have hmem : o ∈ (pstep d u kws no acc ct).1 := by
          simp only [pstep, hco]
          rw [if_neg hk]
          exact List.mem_append_right _ (List.mem_singleton_self o)
        exact ⟨o, pfold_mono d u kws no ts _ o hmem, rfl⟩
    · exact ih (pstep d u kws no acc a) (pstep_pinv d u kws no acc a hinv) ct hct o hco

theorem pinv_nil : pinv ([], []) := by
  refine ⟨?_, ?_, ?_⟩ <;> simp [pinv]

theorem cardOffer_some_intro {d u : String} {kws : List String} {no : Bool}
    {ct : String} {p : Nat} (h1 : text_contains_all_keywords ct kws = true)
    (h2 : (no && is_used_vehicle_text ct) = false) (h3 : extract_price ct = some p) :
    cardOffer d u kws no ct = some ⟨d, truncTitle ct, p, u, none, none⟩ := by
  unfold cardOffer
  rw [h1, h2, h3]
  rfl

theorem cardOffer_some_elim {d u : String} {kws : List String} {no : Bool}
    {ct : String} {o : VehicleOffer} (h : cardOffer d u kws no ct = some o) :
    text_contains_all_keywords ct kws = true ∧
    (no && is_used_vehicle_text ct) = false ∧
    extract_price ct = some o.price ∧
    o = ⟨d, truncTitle ct, o.price, u, none, none⟩ := by
  unfold cardOffer at h
  cases h1 : text_contains_all_keywords ct kws with
  | false => rw [h1] at h; simp at h
  | true =>
    rw [h1] at h
    simp only [Bool.not_true, Bool.false_eq_true, if_false] at h
    cases h2 : no && is_used_vehicle_text ct with
    | true => rw [h2] at h; simp at h
    | false =>
      rw [h2] at h
      simp only [Bool.false_eq_true, if_false] at h
      cases h3 : extract_price ct with
      | none => rw [h3] at h; simp at h
      | some p =>
        rw [h3] at h
        injection h with h4
        subst h4
        exact ⟨rfl, rfl, rfl, rfl⟩

theorem cardText_mem_candidates {root : HNode} {kws : List String}
    {q : List Nat × String} (hq : q ∈ nodeTextPaths root)
    (hk : text_contains_all_keywords q.2 kws = true) :
    cardText root q.1 ∈ candidateCardTexts root kws := by
  unfold candidateCardTexts
  exact List.mem_map_of_mem _ (List.mem_filter.2 ⟨hq, hk⟩)

theorem parse_eq_fold (root : HNode) (d u : String) (kws : List String) (no : Bool) :
    parse_inventory_page root d u kws no =
      ((candidateCardTexts root kws).foldl (pstep d u kws no) ([], [])).1 := rfl

theorem scanPrice_eq_some_iff (cs : List Char) (n : Nat) :
    scanPrice cs = some n ↔
      ∃ i, (∀ j, j < i → groupAt (cs.drop j) = none) ∧
        ∃ g, groupAt (cs.drop i) = some g ∧ groupValue g = some n := by
  induction cs with
  | nil =>
    constructor
    · intro h
      simp [scanPrice] at h
    · rintro ⟨i, -, g, hg, -⟩
      simp [List.drop_nil, groupAt] at hg
  | cons c rest ih =>
    cases hg : groupAt (c :: rest) with
    | some g0 =>
      constructor
      · intro h
        have hv : groupValue g0 = some n := by
          rw [scanPrice, hg] at h
          exact h
        exact ⟨0, fun j hj => absurd hj (Nat.not_lt_zero j), g0, by simpa using hg, hv⟩
      · rintro ⟨i, hb, g, hgi, hv⟩
        match i with
        | 0 =>
          rw [List.drop_zero, hg] at hgi
          injection hgi with h'
          rw [scanPrice, hg, h']
          exact hv
        | i + 1 =>
          have h0 : groupAt ((c :: rest).drop 0) = none := hb 0 (Nat.succ_pos i)
          rw [List.drop_zero] at h0
          rw [h0] at hg
          exact absurd hg (by simp)
    | none =>
      have hS : scanPrice (c :: rest) = scanPrice rest := by
        rw [scanPrice, hg]
      rw [hS, ih]
      constructor
      · rintro ⟨i, hb, g, hgi, hv⟩
        refine ⟨i + 1, ?_, g, ?_, hv⟩
        · intro j hj
          match j with
          | 0 => simpa using hg
          | j + 1 =>
            rw [List.drop_succ_cons]
            exact hb j (by omega)
        · rw [List.drop_succ_cons]
          exact hgi
      · rintro ⟨i, hb, g, hgi, hv⟩
        match i with
        | 0 =>
          rw [List.drop_zero] at hgi
          rw [hgi] at hg
          exact absurd hg (by simp)
        | i + 1 =>
          refine ⟨i, ?_, g, ?_, hv⟩
          · intro j hj
            have := hb (j + 1) (by omega)
            rwa [List.drop_succ_cons] at this
          · rwa [List.drop_succ_cons] at hgi

/-- C1, counterexample to the claim as stated: `docUsed` is an HTML input
whose single listing card's text contains both configured keywords and a
recognizable price (`$50,000`), yet `parse` (run exactly as in the claim's
scenario, with `new_only = true`) returns no offer at all, because the card
also carries the used-vehicle marker `"used"`. -/
theorem c1_counterexample :
    text_contains_all_keywords usedText kwEsc = true ∧
    extract_price usedText = some 50000 ∧
    usedText ∈ candidateCardTexts docUsed kwEsc ∧
    parse_inventory_page docUsed "Dealer One" "https://example.com/inv" kwEsc true = [] := by
  refine ⟨by decide, by decide, by decide, by decide⟩

/-- C1 (amended): for every DOM, every keyword-matching text node whose
climbed listing-card text still contains all keywords, is not rejected by
the enabled new-only filter, and yields a price `p` via the price
extractor, `parse` returns at least one offer carrying exactly `p`; and in
the end-to-end scenario (`<div>2024 Escalade ESV Sport — $104,990 New</div>`,
keywords `["escalade", "esv"]`, `new_only = true`) parse returns exactly one
offer with price 104990, the input dealer name, and a title containing
"Escalade ESV". -/
theorem c1_parse_returns_price :
    (∀ (root : HNode) (d u : String) (kws : List String) (no : Bool)
      (q : List Nat × String) (p : Nat), q ∈ nodeTextPaths root →
      text_contains_all_keywords q.2 kws = true →
      text_contains_all_keywords (cardText root q.1) kws = true →
      (no && is_used_vehicle_text (cardText root q.1)) = false →
      extract_price (cardText root q.1) = some p →
      ∃ o, o ∈ parse_inventory_page root d u kws no ∧ o.price = p) ∧
    (parse_inventory_page docEsc "Dealer One" "https://example.com/inv" kwEsc true =
      [⟨"Dealer One", escText, 104990, "https://example.com/inv", none, none⟩] ∧
     strHas escText "Escalade ESV" = true) := by
  constructor
  · intro root d u kws no q p hq hk hck hused hp
    have hmem := cardText_mem_candidates hq hk
    have hco := @cardOffer_some_intro d u kws no (cardText root q.1) p hck hused hp
    obtain ⟨o', ho', hkey⟩ :=
      pfold_complete d u kws no (candidateCardTexts root kws) ([], []) pinv_nil
        (cardText root q.1) hmem _ hco
    exact ⟨o', ho', congrArg (fun k => k.2.2) hkey⟩
  · exact ⟨by decide, by decide⟩

/-- C1 witness: the general statement instantiated at the scenario
document, its single text node, and price 104990. -/
theorem c1_parse_returns_price_witness :
    ∃ o, o ∈ parse_inventory_page docEsc "Dealer One" "https://example.com/inv" kwEsc true ∧
      o.price = 104990 :=
  c1_parse_returns_price.1 docEsc "Dealer One" "https://example.com/inv" kwEsc true
    ([0, 0, 0, 0], escText) 104990 (by decide) (by decide) (by decide) (by decide) (by decide)

/-- C2, counterexample to the claim as stated: the input `"$,,,, $12345"`
contains a dollar-prefixed 4-to-8-digit substring (`"$12345"`), yet
`extract_price` returns `none`: the regex commits to the earlier match
`"$,,,,"` whose comma-stripped group is empty, and the failed integer
conversion returns `None` without trying later positions. -/
theorem c2_counterexample :
    strHas "$,,,, $12345" "$12345" = true ∧ extract_price "$,,,, $12345" = none := by
  refine ⟨by decide, by decide⟩

/-- C2 (amended): `extract_price` returns `some n` exactly when, at the
first (leftmost) position where the pattern — a dollar sign, optional
whitespace, then greedily 4 to 8 digit-or-comma characters — matches, the
comma-stripped group is non-empty and has integer value `n`; no later
match positions are considered.  In particular `"$98,765"` yields 98765. -/
theorem c2_extract_price_first_match :
    (∀ (s : String) (n : Nat), extract_price s = some n ↔
      ∃ i, (∀ j, j < i → groupAt (s.toList.drop j) = none) ∧
        ∃ g, groupAt (s.toList.drop i) = some g ∧ groupValue g = some n) ∧
    extract_price "$98,765" = some 98765 :=
  ⟨fun s n => scanPrice_eq_some_iff s.toList n, by decide⟩

/-- C3: a card whose text carries a used-vehicle marker produces no offer
when `new_only` is enabled; a keyword-matching, priced card produces its
offer when `new_only` is disabled (and an offer with that title and price
appears in the parse output); concretely, the CPO scenario yields zero
offers with `new_only = true` and exactly one offer with price 71250 with
`new_only = false`. -/
theorem c3_new_only_filter :
    (∀ (d u : String) (kws : List String) (ct : String),
      is_used_vehicle_text ct = true → cardOffer d u kws true ct = none) ∧
    (∀ (root : HNode) (d u : String) (kws : List String) (ct : String) (p : Nat),
      ct ∈ candidateCardTexts root kws →
      text_contains_all_keywords ct kws = true →
      extract_price ct = some p →
      cardOffer d u kws false ct = some ⟨d, truncTitle ct, p, u, none, none⟩ ∧
      ∃ o, o ∈ parse_inventory_page root d u kws false ∧ o.price = p ∧
        o.title = truncTitle ct) ∧
    parse_inventory_page docCPO "Dealer One" "https://example.com/inv" kwEsc true = [] ∧
    parse_inventory_page docCPO "Dealer One" "https://example.com/inv" kwEsc false =
      [⟨"Dealer One", cpoText, 71250, "https://example.com/inv", none, none⟩] := by
  refine ⟨?_, ?_, by decide, by decide⟩
  · intro d u kws ct hu
    cases hk : text_contains_all_keywords ct kws with
    | false => simp [cardOffer, hk]
    | true => simp [cardOffer, hk, hu]
  · intro root d u kws ct p hmem hk hp
    have hco := @cardOffer_some_intro d u kws false ct p hk (by simp) hp
    refine ⟨hco, ?_⟩
    obtain ⟨o', ho', hkey⟩ :=
      pfold_complete d u kws false (candidateCardTexts root kws) ([], []) pinv_nil
        ct hmem _ hco
    exact ⟨o', ho', congrArg (fun k => k.2.2) hkey, congrArg (fun k => k.2.1) hkey⟩

/-- C3 witness: the disabled-filter statement instantiated at the CPO
scenario document and its card text. -/
theorem c3_new_only_filter_witness :
    cardOffer "Dealer One" "https://example.com/inv" kwEsc false cpoText =
      some ⟨"Dealer One", truncTitle cpoText, 71250, "https://example.com/inv", none, none⟩ ∧
    ∃ o, o ∈ parse_inventory_page docCPO "Dealer One" "https://example.com/inv" kwEsc false ∧
      o.price = 71250 ∧ o.title = truncTitle cpoText :=
  c3_new_only_filter.2.1 docCPO "Dealer One" "https://example.com/inv" kwEsc cpoText 71250
    (by decide) (by decide) (by decide)

/-- C4, counterexample to the claim as stated: in `docDots` the card text
is 30 characters long, so no truncation occurs and the offer's title is
the full card text — yet that title carries the three-character ellipsis
marker, because the card text itself ends in `"..."`.  The title therefore
does not carry the ellipsis marker "exactly when" truncation occurred. -/
theorem c4_counterexample :
    parse_inventory_page docDots "Dealer One" "https://example.com/inv" kwEsc true =
      [⟨"Dealer One", dotsText, 12345, "https://example.com/inv", none, none⟩] ∧
    strLen dotsText ≤ 140 ∧
    strEndsWithDots dotsText = true := by
  refine ⟨by decide, by decide, by decide⟩

/-- C4 (amended): every offer's title is the recomputed card text when
that text has at most 140 characters, and otherwise the first 137
characters followed by the three-character suffix `"..."`; consequently
every title is at most 140 characters long and carries the ellipsis
suffix whenever truncation occurred. -/
theorem c4_title_truncation :
    ∀ (root : HNode) (d u : String) (kws : List String) (no : Bool)
      (o : VehicleOffer), o ∈ parse_inventory_page root d u kws no →
      ∃ ct, ct ∈ candidateCardTexts root kws ∧ o.title = truncTitle ct ∧
        (strLen ct ≤ 140 → o.title = ct) ∧
        (140 < strLen ct → o.title = strTake ct 137 ++ "..." ∧
          strEndsWithDots o.title = true) ∧
        strLen o.title ≤ 140 := by
  intro root d u kws no o ho
  rcases pfold_sources d u kws no (candidateCardTexts root kws) ([], []) o ho with
    h | ⟨ct, hct, hco⟩
  · exact absurd h (List.not_mem_nil o)
  · obtain ⟨-, -, -, ho'⟩ := cardOffer_some_elim hco
    have htitle : o.title = truncTitle ct := congrArg VehicleOffer.title ho'
    refine ⟨ct, hct, htitle, ?_, ?_, ?_⟩
    · intro hle
      rw [htitle, truncTitle_of_le hle]
    · intro hgt
      rw [htitle, truncTitle_of_gt hgt]
      exact ⟨rfl, strEndsWithDots_append _⟩
    · rw [htitle]
      exact strLen_truncTitle ct

/-- C4 witness: the title statement instantiated at the ellipsis-ending
scenario document and its single offer. -/
theorem c4_title_truncation_witness :
    ∃ ct, ct ∈ candidateCardTexts docDots kwEsc ∧
      (⟨"Dealer One", dotsText, 12345, "https://example.com/inv", none, none⟩ :
        VehicleOffer).title = truncTitle ct ∧
      (strLen ct ≤ 140 →
        (⟨"Dealer One", dotsText, 12345, "https://example.com/inv", none, none⟩ :
          VehicleOffer).title = ct) ∧
      (140 < strLen ct →
        (⟨"Dealer One", dotsText, 12345, "https://example.com/inv", none, none⟩ :
          VehicleOffer).title = strTake ct 137 ++ "..." ∧
        strEndsWithDots (⟨"Dealer One", dotsText, 12345, "https://example.com/inv",
          none, none⟩ : VehicleOffer).title = true) ∧
      strLen (⟨"Dealer One", dotsText, 12345, "https://example.com/inv", none, none⟩ :
        VehicleOffer).title ≤ 140 :=
  c4_title_truncation docDots "Dealer One" "https://example.com/inv" kwEsc true
    ⟨"Dealer One", dotsText, 12345, "https://example.com/inv", none, none⟩ (by decide)

/-- C5: the aggregated output is the concatenation of the per-dealer
results, sorted ascending by price by a stable sort — it is pairwise
price-sorted and, for every price value, the subsequence of offers at that
price is exactly the one of the unsorted concatenation (so equal-priced
offers keep their arrival order); the `[50000, 30000, 30000, 80000]`
scenario keeps the two 30000-priced offers in their original order. -/
theorem c5_sorted_stable :
    (∀ rs : List (List VehicleOffer),
      (find_best_offers rs).Pairwise (fun a b => a.price ≤ b.price) ∧
      ∀ p : Nat, (find_best_offers rs).filter (fun o => o.price == p) =
        (rs.flatten).filter (fun o => o.price == p)) ∧
    find_best_offers [[o50, o30a], [o30b, o80]] = [o30a, o30b, o50, o80] := by
  constructor
  · intro rs
    constructor
    · rw [find_best_offers_eq]
      exact sorted_sortByPrice _
    · intro p
      rw [find_best_offers_eq]
      exact filter_sortByPrice _ p
  · decide

/-- C6: every offer produced by `parse` has the dealer's name, the
dealer's inventory URL as its listing URL, unset location fields, a price
actually extracted from its card text (hence non-null), a card text that
contains all keywords and passes the enabled new-vehicle filter, and the
truncated card text as title; moreover a card with no price-shaped
substring yields no offer regardless of keyword match. -/
theorem c6_offer_invariants :
    (∀ (root : HNode) (d u : String) (kws : List String) (no : Bool)
      (o : VehicleOffer), o ∈ parse_inventory_page root d u kws no →
      o.dealer_name = d ∧ o.listing_url = u ∧ o.location = none ∧
      o.distance_miles = none ∧
      ∃ ct, ct ∈ candidateCardTexts root kws ∧
        text_contains_all_keywords ct kws = true ∧
        (no = true → is_used_vehicle_text ct = false) ∧
        extract_price ct = some o.price ∧ o.title = truncTitle ct) ∧
    (∀ (d u : String) (kws : List String) (no : Bool) (ct : String),
      extract_price ct = none → cardOffer d u kws no ct = none) := by
  constructor
  · intro root d u kws no o ho
    rcases pfold_sources d u kws no (candidateCardTexts root kws) ([], []) o ho with
      h | ⟨ct, hct, hco⟩
    · exact absurd h (List.not_mem_nil o)
    · obtain ⟨hk, hu, hp, ho'⟩ := cardOffer_some_elim hco
      refine ⟨congrArg VehicleOffer.dealer_name ho', congrArg VehicleOffer.listing_url ho',
        congrArg VehicleOffer.location ho', congrArg VehicleOffer.distance_miles ho',
        ct, hct, hk, ?_, hp, congrArg VehicleOffer.title ho'⟩
      intro hno
      rw [hno, Bool.true_and] at hu
      exact hu
  · intro d u kws no ct hp
    cases hk : text_contains_all_keywords ct kws with
    | false => simp [cardOffer, hk]
    | true =>
      cases hu : no && is_used_vehicle_text ct with
      | true => simp [cardOffer, hk, hu]
      | false => simp [cardOffer, hk, hu, hp]

/-- C6 witness: the invariant instantiated at the scenario document and
its single offer. -/
theorem c6_offer_invariants_witness :
    (⟨"Dealer One", escText, 104990, "https://example.com/inv", none, none⟩ :
        VehicleOffer).dealer_name = "Dealer One" ∧
    (⟨"Dealer One", escText, 104990, "https://example.com/inv", none, none⟩ :
        VehicleOffer).listing_url = "https://example.com/inv" ∧
    (⟨"Dealer One", escText, 104990, "https://example.com/inv", none, none⟩ :
        VehicleOffer).location = none ∧
    (⟨"Dealer One", escText, 104990, "https://example.com/inv", none, none⟩ :
        VehicleOffer).distance_miles = none ∧
    ∃ ct, ct ∈ candidateCardTexts docEsc kwEsc ∧
      text_contains_all_keywords ct kwEsc = true ∧
      (true = true → is_used_vehicle_text ct = false) ∧
      extract_price ct = some (⟨"Dealer One", escText, 104990,
        "https://example.com/inv", none, none⟩ : VehicleOffer).price ∧
      (⟨"Dealer One", escText, 104990, "https://example.com/inv", none, none⟩ :
        VehicleOffer).title = truncTitle ct :=
  c6_offer_invariants.1 docEsc "Dealer One" "https://example.com/inv" kwEsc true
    ⟨"Dealer One", escText, 104990, "https://example.com/inv", none, none⟩ (by decide)

/-- C7: within one `parse` call no two offers share the
`(dealer_name, title, price)` key; but the deduplication set is created
afresh per call, so identical offers from two separate parse calls (or
from two dealers) all survive into the aggregated sequence. -/
theorem c7_dedup_scope :
    (∀ (root : HNode) (d u : String) (kws : List String) (no : Bool),
      (parse_inventory_page root d u kws no).Pairwise
        (fun a b => dedupKeyOf a ≠ dedupKeyOf b)) ∧
    find_best_offers
        [parse_inventory_page docEsc "Dealer One" "https://example.com/inv" kwEsc true,
         parse_inventory_page docEsc "Dealer One" "https://example.com/inv" kwEsc true] =
      [⟨"Dealer One", escText, 104990, "https://example.com/inv", none, none⟩,
       ⟨"Dealer One", escText, 104990, "https://example.com/inv", none, none⟩] ∧
    (find_best_offers
        [parse_inventory_page docEsc "Dealer A" "https://example.com/inv" kwEsc true,
         parse_inventory_page docEsc "Dealer B" "https://example.com/inv" kwEsc true]).length
      = 2 := by
  refine ⟨?_, by decide, by decide⟩
  intro root d u kws no
  exact (pfold_pinv d u kws no (candidateCardTexts root kws) ([], []) pinv_nil).2.2

/-- C8: `parse` is a pure function of its arguments — the deduplication
state is created inside each call — so two invocations on the same HTML
with the same dealer name, URL, keywords and flag yield offer lists equal
in content and size. -/
theorem c8_parse_deterministic :
    ∀ (root : HNode) (d u : String) (kws : List String) (no : Bool),
      parse_inventory_page root d u kws no = parse_inventory_page root d u kws no ∧
      (parse_inventory_page root d u kws no).length =
        (parse_inventory_page root d u kws no).length :=
  fun _ _ _ _ _ => ⟨rfl, rfl⟩

/-- C9: an absent dealer file yields the empty dealer list and the
pipeline degrades to "no offers"; blank-valued and absent-column rows are
silently skipped in file order — but a data row shorter than the header
(a `None` cell, here `Foo` with no URL value) makes `row.get(...).strip()`
raise `AttributeError`, aborting the call instead of skipping the row. -/
theorem c9_load_dealers :
    load_dealers none = .ok [] ∧
    find_best_offers [] = [] ∧
    load_dealers (some [(.str "  ", .str "https://u0"), (.str "A", .str "https://u1"),
        (.absent, .str "https://u2"), (.str "B", .str "https://u3")]) =
      .ok [⟨"A", "https://u1"⟩, ⟨"B", "https://u3"⟩] ∧
    load_dealers (some [(.str "Foo", .null)]) = .error "AttributeError" :=
  ⟨rfl, rfl, rfl, rfl⟩

/-- C10: `extract_price` is total — for every string it returns either an
integer or `none` — and on `"$,,,,"`, whose first regex match consists
only of commas, the failed integer conversion is caught and the result is
`none`. -/
theorem c10_extract_price_total :
    (∀ s : String, extract_price s = none ∨ ∃ n, extract_price s = some n) ∧
    extract_price "$,,,," = none := by
  constructor
  · intro s
    cases h : extract_price s with
    | none => exact .inl rfl
    | some n => exact .inr ⟨n, rfl⟩
  · decide

